import Mathlib

/-!
# Pin exception and FP-context test tools: a verification development

Shallow embedding of two Pin tools and one test application of the repository:

* `ToolUnitTests/exceptionAddress_lin.cpp` (namespace `ExceptionAddress`):
  the generic tool exception handler `toolHandler`, the SIGFPE interceptor
  `onSIGFPE` and `Fini`;
* `Probes/exception_in_mt_attach_app.cpp` (namespace `ExceptionInMtAttach`):
  `SigUsr1Handler` and `CancelAllThreads`;
* `AVX/set_fp_context_ymm_regs_xmms_spilled.cpp` (namespace `SetFpContextYmm`):
  the `XMMREG` union, `REPLACE_ReplacedYmmRegs`, `CheckAndSetFpContextYmmRegs`,
  `GetStackAdjustment` and `OnException`.

Diagnostic output (`cerr`, `printf`) has no influence on the results and is
left out of the embedding. `exit(-1)` is an `Except.error`.
-/

/-! ## Definitions: exceptionAddress_lin.cpp -/

namespace ExceptionAddress

/-- Machine address (`ADDRINT`). The handlers only compare and copy addresses. -/
abbrev ADDRINT := Nat

/-- The result of an internal exception handler (`EXCEPT_HANDLING_RESULT`). -/
inductive EXCEPT_HANDLING_RESULT where
  | EHR_HANDLED
  | EHR_UNHANDLED
deriving DecidableEq, Repr

/-- The four global `bool` variables of the tool (source lines 60-63). -/
structure Flags where
  handledPinException : Bool
  handledToolAccessInvalidAddress : Bool
  handledToolIntDivZero : Bool
  handledApplicationDivZero : Bool
deriving DecidableEq, Repr

/-- A `bool*`: the address of one of the global flags. -/
inductive FlagPtr where
  | handledPinException
  | handledToolAccessInvalidAddress
  | handledToolIntDivZero
  | handledApplicationDivZero
deriving DecidableEq, Repr

/-- Reading through a flag pointer: `*p`. -/
def Flags.read (fl : Flags) : FlagPtr → Bool
  | .handledPinException => fl.handledPinException
  | .handledToolAccessInvalidAddress => fl.handledToolAccessInvalidAddress
  | .handledToolIntDivZero => fl.handledToolIntDivZero
  | .handledApplicationDivZero => fl.handledApplicationDivZero

/-- Writing through a flag pointer: `*p = b`. -/
def Flags.write (fl : Flags) (p : FlagPtr) (b : Bool) : Flags :=
  match p with
  | .handledPinException => { fl with handledPinException := b }
  | .handledToolAccessInvalidAddress => { fl with handledToolAccessInvalidAddress := b }
  | .handledToolIntDivZero => { fl with handledToolIntDivZero := b }
  | .handledApplicationDivZero => { fl with handledApplicationDivZero := b }

/-- The initial values of the flags: all `false`. -/
def Flags.initial : Flags := ⟨false, false, false, false⟩

/-- One expected tool exception (`struct ToolException`, lines 53-58). -/
structure ToolException where
  ip : ADDRINT
  fixIp : ADDRINT
  name : String
  handled : FlagPtr
deriving DecidableEq, Repr

/-- Modelled from the spec: `PHYSICAL_CONTEXT` and `CONTEXT` are declared in pin.H,
which is not part of the sources; the handlers only use the instruction pointer
register through `PIN_GetPhysicalContextReg` / `PIN_SetPhysicalContextReg`
(`getProgramCounter` / `setProgramCounter` of the spec). -/
structure PHYSICAL_CONTEXT where
  REG_INST_PTR : ADDRINT
deriving DecidableEq, Repr

/-- What `toolHandler` returns and leaves behind: the return value, the
context and the global flags. -/
structure HandlerOutcome where
  result : EXCEPT_HANDLING_RESULT
  pctxt : PHYSICAL_CONTEXT
  flags : Flags
deriving DecidableEq, Repr

/-- The tool's generic handler (lines 69-86). `exptAddr` is
`PIN_GetExceptionAddress(exptInfo)`. -/
def toolHandler (toolException : ToolException) (exptAddr : ADDRINT)
    (pctxt : PHYSICAL_CONTEXT) (flags : Flags) : HandlerOutcome :=
  let ip := pctxt.REG_INST_PTR
  if ip = toolException.ip then
    let pctxt1 : PHYSICAL_CONTEXT := { pctxt with REG_INST_PTR := toolException.fixIp }
    if exptAddr ≠ ip then
      ⟨.EHR_HANDLED, pctxt1, flags⟩
    else
      ⟨.EHR_HANDLED, pctxt1, flags.write toolException.handled true⟩
  else
    ⟨.EHR_UNHANDLED, pctxt, flags⟩

/-- What `onSIGFPE` returns and leaves behind: the return value (`true` means
the signal is forwarded to the application), the context and the flags. -/
structure SigOutcome where
  forward : Bool
  ctxt : PHYSICAL_CONTEXT
  flags : Flags
deriving DecidableEq, Repr

/-- The scan loop of `onSIGFPE` (lines 151-164) from iterator position `it`,
given as the remaining part of `inslist`. When the element equals `ip` the
iterator is advanced and dereferenced: on the end iterator that read is
undefined, which is `none` here. -/
def onSIGFPE_loop (exptAddr ip : ADDRINT) (ctxt : PHYSICAL_CONTEXT) (flags : Flags) :
    List ADDRINT → Option SigOutcome
  | [] => some ⟨true, ctxt, flags⟩
  | a :: rest =>
    if a = ip then
      match rest with
      | [] => none
      | next :: _ =>
        let ctxt1 : PHYSICAL_CONTEXT := { ctxt with REG_INST_PTR := next }
        if exptAddr = ip then
          some ⟨false, ctxt1, { flags with handledApplicationDivZero := true }⟩
        else
          some ⟨false, ctxt1, flags⟩
    else
      onSIGFPE_loop exptAddr ip ctxt flags rest

/-- The SIGFPE interceptor (lines 146-166). -/
def onSIGFPE (inslist : List ADDRINT) (exptAddr : ADDRINT) (ctxt : PHYSICAL_CONTEXT)
    (flags : Flags) : Option SigOutcome :=
  onSIGFPE_loop exptAddr ctxt.REG_INST_PTR ctxt flags inslist

/-- `Fini` (lines 196-220): `exit(-1)` is `Except.error (-1)`, the normal return
after the success message is `Except.ok ()`. -/
def Fini (flags : Flags) : Except Int Unit :=
  let failed := false
  let failed := if !flags.handledPinException then true else failed
  let failed := if !flags.handledToolAccessInvalidAddress then true else failed
  let failed := if !flags.handledToolIntDivZero then true else failed
  let failed := if !flags.handledApplicationDivZero then true else failed
  if failed then .error (-1) else .ok ()

end ExceptionAddress

/-! ## Definitions: exception_in_mt_attach_app.cpp -/

namespace ExceptionInMtAttach

/-- A thread handle (`pthread_t`). -/
abbrev pthread_t := Nat

/-- What the signal handler does that other threads can observe, in the order
in which it does it: a `pthread_cancel` request on a handle, and the write of
`true` into `allThreadsCanceled`. -/
inductive Event where
  | cancel (th : pthread_t)
  | setAllThreadsCanceled
deriving DecidableEq, Repr

/-- The globals the handler works on (lines 48, 57, 213) and the events issued
so far. -/
structure State where
  allThreadsCanceled : Bool
  numOfSecondaryThreads : Nat
  thHandle : Nat → pthread_t
  trace : List Event

/-- The state when `main` has created the threads: `allThreadsCanceled` still
has its initial value `false` (line 48) and nothing has been issued. -/
def State.initial (numOfSecondaryThreads : Nat) (thHandle : Nat → pthread_t) : State :=
  ⟨false, numOfSecondaryThreads, thHandle, []⟩

/-- The loop of `CancelAllThreads` (lines 275-278) with `count` iterations left,
at index `i`. -/
def CancelAllThreads_loop : Nat → Nat → State → State
  | 0, _, s => s
  | count + 1, i, s =>
    CancelAllThreads_loop count (i + 1) { s with trace := s.trace ++ [Event.cancel (s.thHandle i)] }

/-- `CancelAllThreads` (lines 273-279). -/
def CancelAllThreads (s : State) : State :=
  CancelAllThreads_loop s.numOfSecondaryThreads 0 s

/-- `SigUsr1Handler` (lines 78-86). -/
def SigUsr1Handler (s : State) : State :=
  if !s.allThreadsCanceled then
    let s1 := CancelAllThreads s
    { s1 with allThreadsCanceled := true, trace := s1.trace ++ [Event.setAllThreadsCanceled] }
  else
    s

end ExceptionInMtAttach

/-! ## Definitions: set_fp_context_ymm_regs_xmms_spilled.cpp -/

namespace SetFpContextYmm

/-- A `for (int i = start; i < start + count; i++)` loop whose body cannot
leave the function. -/
def forLoop {σ : Type} (body : Nat → σ → σ) : Nat → Nat → σ → σ
  | 0, _, s => s
  | count + 1, i, s => forLoop body count (i + 1) (body i s)

/-- A `for (int i = start; i < start + count; i++)` loop whose body may call
`exit`: the first `Except.error` ends the loop and the function. -/
def forLoopE {ε σ : Type} (body : Nat → σ → Except ε σ) : Nat → Nat → σ → Except ε σ
  | 0, _, s => .ok s
  | count + 1, i, s =>
    match body i s with
    | .error e => .error e
    | .ok s1 => forLoopE body count (i + 1) s1

/-- A little-endian store of the `width` low bytes of `val` at byte offset
`off` of a byte buffer: the write through a `UINT8`, `UINT16`, `UINT32` or
`UINT64` view of the `XMMREG` union on x86. -/
def storeLE (mem : Nat → Nat) (off width val : Nat) : Nat → Nat :=
  fun b => if off ≤ b ∧ b < off + width then (val / 256 ^ (b - off)) % 256 else mem b

/-- A little-endian load of `width` bytes at byte offset `off`. -/
def loadLE (mem : Nat → Nat) (off : Nat) : Nat → Nat
  | 0 => 0
  | width + 1 => mem off % 256 + 256 * loadLE mem (off + 1) width

/-- The 16 bytes of an `XMMREG` (lines 57-63), byte index to byte value. -/
abbrev XMMREG := Nat → Nat

/-- Read `_vec8[j]`. -/
def XMMREG.vec8 (r : XMMREG) (j : Nat) : Nat := r j

/-- Write `_vec8[j] = v`. -/
def XMMREG.set_vec8 (r : XMMREG) (j v : Nat) : XMMREG := storeLE r j 1 v

/-- Write `_vec64[k] = v`. -/
def XMMREG.set_vec64 (r : XMMREG) (k v : Nat) : XMMREG := storeLE r (8 * k) 8 v

/-- Read `_vec16[k]`. -/
def XMMREG.vec16 (r : XMMREG) (k : Nat) : Nat := loadLE r (2 * k) 2

/-- Read `_vec32[k]`. -/
def XMMREG.vec32 (r : XMMREG) (k : Nat) : Nat := loadLE r (4 * k) 4

/-- Read `_vec64[k]`. -/
def XMMREG.vec64 (r : XMMREG) (k : Nat) : Nat := loadLE r (8 * k) 8

/-- Write `_vec32[k] = v`. -/
def XMMREG.set_vec32 (r : XMMREG) (k v : Nat) : XMMREG := storeLE r (4 * k) 4 v

/-- Modelled from the spec: `FPSTATE` is declared in pin.H, which is not part
of the sources. Following the spec's RegisterSnapshot and the accesses of the
source, it holds the legacy registers `fxsave_legacy._xmms[i]` (the low 128
bits of each register) and the byte array `_xstate._ymmUpper` (the upper 128
bits, 16 bytes per register). -/
structure FPSTATE where
  xmms : Nat → XMMREG
  ymmUpper : Nat → Nat

/-- Replace the legacy register `i`: an assignment to a part of
`fxsave_legacy._xmms[i]`. -/
def FPSTATE.setXmm (fp : FPSTATE) (i : Nat) (r : XMMREG) : FPSTATE :=
  { fp with xmms := fun k => if k = i then r else fp.xmms k }

/-- Modelled from the spec: `CONTEXT` is declared in pin.H, which is not part of
the sources. It holds the FP state and the instruction and stack pointer
registers that the tool reads and writes. -/
structure CONTEXT where
  fpstate : FPSTATE
  REG_INST_PTR : Nat
  REG_STACK_PTR : Nat

/-- Modelled from the spec: `PIN_GetContextFPState` belongs to the Pin API,
which is not part of the sources; `captureFpContext` of the spec: the whole
buffer is overwritten with the FP state of the context. -/
def PIN_GetContextFPState (ctxt : CONTEXT) (_fpstate : FPSTATE) : FPSTATE :=
  ctxt.fpstate

/-- Modelled from the spec: `PIN_SetContextFPState` belongs to the Pin API,
which is not part of the sources; `commitFpContext` of the spec: a later
capture returns what was committed. -/
def PIN_SetContextFPState (ctxt : CONTEXT) (fpstate : FPSTATE) : CONTEXT :=
  { ctxt with fpstate := fpstate }

/-- The two contexts `CheckAndSetFpContextYmmRegs` works on. -/
structure Contexts where
  ctxtFrom : CONTEXT
  ctxtTo : CONTEXT

/-- The byte check loops of `CheckAndSetFpContextYmmRegs` (lines 234-246 with
`v = 0xa5` and lines 268-279 with `v = 0x5a`): `exit (-1)` at the first byte
of `_xmms[i]._vec8[j]`, `i < NUM_YMM_REGS`, `j < 16`, that differs from `v`.
The error carries the exit code and the contexts at the exit. -/
def verifyXmmBytes (NUM_YMM_REGS : Nat) (fp : FPSTATE) (v : Nat) (w : Contexts) :
    Except (Int × Contexts) Unit :=
  forLoopE (fun i _ =>
    forLoopE (fun j _ =>
      if (fp.xmms i).vec8 j ≠ v then .error (-1, w) else .ok ()) 16 0 ()) NUM_YMM_REGS 0 ()

/-- `CheckAndSetFpContextYmmRegs` (lines 225-284). `NUM_YMM_REGS` is 16 with
`TARGET_IA32E` and 8 otherwise. The result is the pair of contexts after the
call, or the exit code with the contexts at the `exit`. -/
def CheckAndSetFpContextYmmRegs (NUM_YMM_REGS : Nat) (w : Contexts) :
    Except (Int × Contexts) Contexts :=
  -- the buffer, before the first capture (its contents are never read)
  let fpContextFromPin : FPSTATE := ⟨fun _ _ => 0, fun _ => 0⟩
  -- line 233
  let fpContextFromPin := PIN_GetContextFPState w.ctxtFrom fpContextFromPin
  -- lines 234-246
  match verifyXmmBytes NUM_YMM_REGS fpContextFromPin 0xa5 w with
  | .error e => .error e
  | .ok _ =>
    -- lines 252-258
    let fpContextFromPin := forLoop (fun i fp =>
      forLoop (fun j fp => fp.setXmm i ((fp.xmms i).set_vec8 j 0x5a)) 16 0 fp)
      NUM_YMM_REGS 0 fpContextFromPin
    -- line 259
    let w1 : Contexts := { w with ctxtTo := PIN_SetContextFPState w.ctxtTo fpContextFromPin }
    -- lines 262-266
    let fpContextFromPin := forLoop (fun i fp =>
      let fp := fp.setXmm i ((fp.xmms i).set_vec64 0 0x0)
      fp.setXmm i ((fp.xmms i).set_vec64 1 0x0)) NUM_YMM_REGS 0 fpContextFromPin
    -- line 267
    let fpContextFromPin := PIN_GetContextFPState w1.ctxtTo fpContextFromPin
    -- lines 268-279
    match verifyXmmBytes NUM_YMM_REGS fpContextFromPin 0x5a w1 with
    | .error e => .error e
    | .ok _ => .ok w1

/-- The `XMMREG` that `reinterpret_cast<XMMREG*>(&(fp->_xstate._ymmUpper[j]))`
points to: the 16 bytes of `_ymmUpper` from byte offset `j` on. -/
def FPSTATE.upperAt (fp : FPSTATE) (j : Nat) : XMMREG := fun b => fp.ymmUpper (j + b)

/-- The write `(reinterpret_cast<XMMREG*>(&(fp->_xstate._ymmUpper[j])))->_vec32[k] = v`. -/
def FPSTATE.setUpperVec32 (fp : FPSTATE) (j k v : Nat) : FPSTATE :=
  { fp with ymmUpper := storeLE fp.ymmUpper (j + 4 * k) 4 v }

/-- The state of the upper-half mutation loop: the buffer, the byte offset `j`
and, in the order of the writes, the byte offsets of `_ymmUpper` written so
far. -/
structure MutState where
  fp : FPSTATE
  j : Nat
  upperWrites : List Nat

/-- One statement of lines 98-101: the 32-bit write of lane `k` at the current
offset `j`, which writes the four bytes from `j + 4 * k` on. -/
def MutState.setLane (s : MutState) (k v : Nat) : MutState :=
  { s with fp := s.fp.setUpperVec32 s.j k v,
           upperWrites := s.upperWrites ++ List.range' (s.j + 4 * k) 4 }

/-- The body of the legacy mutation loop (lines 89-92 and 159-162): the four
32-bit lanes of `fxsave_legacy._xmms[i]` are set to `pattern`. -/
def setLegacyLanes (pattern i : Nat) (fp : FPSTATE) : FPSTATE :=
  let fp := fp.setXmm i ((fp.xmms i).set_vec32 0 pattern)
  let fp := fp.setXmm i ((fp.xmms i).set_vec32 1 pattern)
  let fp := fp.setXmm i ((fp.xmms i).set_vec32 2 pattern)
  fp.setXmm i ((fp.xmms i).set_vec32 3 pattern)

/-- The body of the upper-half mutation loop (lines 98-102 and 168-172): the
four 32-bit lanes of the `XMMREG` at `_ymmUpper[j]` are set to `pattern`, then
`j += 16`. -/
def setUpperLanes (pattern : Nat) (s : MutState) : MutState :=
  let s := s.setLane 0 pattern
  let s := s.setLane 1 pattern
  let s := s.setLane 2 pattern
  let s := s.setLane 3 pattern
  { s with j := s.j + 16 }

/-- The mutation loops of `REPLACE_ReplacedYmmRegs`: lines 87-103 with
`pattern = 0xacdcacdc` and lines 157-173 with `pattern = 0xdeadbeef`. The
first loop runs over the legacy registers, the second one, started with
`j = 0`, over `_ymmUpper`. -/
def setYmmPattern (NUM_YMM_REGS pattern : Nat) (fp : FPSTATE) : MutState :=
  let fp := forLoop (fun i fp => setLegacyLanes pattern i fp) NUM_YMM_REGS 0 fp
  forLoop (fun _ s => setUpperLanes pattern s) NUM_YMM_REGS 0 ⟨fp, 0, []⟩

/-- The read-back comparison loop of `REPLACE_ReplacedYmmRegs` (lines 111-144)
on the buffer written, `fp`, and the buffer read back, `fp2`: `exit (-1)` at
the first register whose compared 64-bit lanes differ. The legacy lanes are
`_xmms[i]._vec64[0..1]`; the upper lanes are read through
`&_ymmUpper[i]`, indexed by the register number `i`. The loop state is `j`,
which steps by 16 and is only used in the error message. -/
def verifyReadBack (NUM_YMM_REGS : Nat) (fp fp2 : FPSTATE) : Except Int Nat :=
  forLoopE (fun i j =>
    if (fp.xmms i).vec64 0 ≠ (fp2.xmms i).vec64 0 ∨
       (fp.xmms i).vec64 1 ≠ (fp2.xmms i).vec64 1 ∨
       (fp.upperAt i).vec64 0 ≠ (fp2.upperAt i).vec64 0 ∨
       (fp.upperAt i).vec64 1 ≠ (fp2.upperAt i).vec64 1 then
      .error (-1)
    else
      .ok (j + 16)) NUM_YMM_REGS 0 0

/-- Modelled from the spec: `PIN_SaveContext` belongs to the Pin API, which is
not part of the sources: a copy of the context. -/
def PIN_SaveContext (ctxt : CONTEXT) : CONTEXT := ctxt

/-- What `REPLACE_ReplacedYmmRegs` leaves behind: the context and the buffer
`fpContextFromPin` at the end, the context `PIN_CallApplicationFunction` was
called with, the context `PIN_ExecuteAt` was called with, if it was, and the
byte offsets of `_ymmUpper` written by the mutation loops, in order. -/
structure ReplaceResult where
  ctxt : CONTEXT
  fpContextFromPin : FPSTATE
  calledWith : CONTEXT
  executedAt : Option CONTEXT
  upperWrites : List Nat

/-- `REPLACE_ReplacedYmmRegs` (lines 65-184). `executeAtAddr` is the global of
line 55. `PIN_CallApplicationFunction` takes the context as `const` and leaves
it and the buffer as they are. -/
def REPLACE_ReplacedYmmRegs (NUM_YMM_REGS : Nat) (KnobUseIargConstContext : Bool)
    (executeAtAddr : Nat) (context : CONTEXT) : Except Int ReplaceResult :=
  -- lines 70-79
  let ctxt := if KnobUseIargConstContext then PIN_SaveContext context else context
  -- line 86
  let fpContextFromPin := PIN_GetContextFPState ctxt ⟨fun _ _ => 0, fun _ => 0⟩
  -- lines 87-103
  let m1 := setYmmPattern NUM_YMM_REGS 0xacdcacdc fpContextFromPin
  let fpContextFromPin := m1.fp
  -- line 105
  let ctxt := PIN_SetContextFPState ctxt fpContextFromPin
  -- line 110
  let fpContextFromPin2 := PIN_GetContextFPState ctxt ⟨fun _ _ => 0, fun _ => 0⟩
  -- lines 111-144
  match verifyReadBack NUM_YMM_REGS fpContextFromPin fpContextFromPin2 with
  | .error e => .error e
  | .ok _ =>
    -- lines 149-150
    let calledWith := ctxt
    -- lines 154-183
    if executeAtAddr ≠ 0 then
      let m2 := setYmmPattern NUM_YMM_REGS 0xdeadbeef fpContextFromPin
      let fpContextFromPin := m2.fp
      let ctxt := PIN_SetContextFPState ctxt fpContextFromPin
      let ctxt := { ctxt with REG_INST_PTR := executeAtAddr }
      .ok ⟨ctxt, fpContextFromPin, calledWith, some ctxt, m1.upperWrites ++ m2.upperWrites⟩
    else
      .ok ⟨ctxt, fpContextFromPin, calledWith, none, m1.upperWrites⟩

/-- A context whose FP state has every byte of the legacy registers and of
`_ymmUpper` equal to `v` (as the application leaves it with `v = 0xa5`). -/
def filledContext (v : Nat) : CONTEXT :=
  ⟨⟨fun _ _ => v, fun _ => v⟩, 0, 0⟩

/-- A context whose FP state is 0xa5 in every byte, except byte 0 of
`_ymmUpper` (the upper half of register 0), which is 0. -/
def upperByteCleared : CONTEXT :=
  ⟨⟨fun _ _ => 0xa5, fun k => if k = 0 then 0 else 0xa5⟩, 0, 0⟩

/-- The value of a mathematical integer as an `INT32`: reduction modulo 2^32
into the range -2^31 .. 2^31 - 1. -/
def wrapINT32 (x : Int) : Int := (x + 2147483648) % 4294967296 - 2147483648

/-- `GetStackAdjustment` (lines 300-318). `StackEntryAlignment` is the constant
of lines 291-297: 8, 12 or 0 depending on the target. `%` of C truncates
towards zero (`Int.tmod`); the `INT32` subtractions and the addition wrap. -/
def GetStackAdjustment (StackEntryAlignment : Int) (currentAlignment frameSize : Int) : Int :=
  if StackEntryAlignment = 0 ∨ currentAlignment = 0 then
    0
  else
    let adjustment :=
      Int.tmod (wrapINT32 (wrapINT32 (currentAlignment - frameSize) - StackEntryAlignment)) 16
    if adjustment < 0 then
      wrapINT32 (16 + adjustment)
    else
      adjustment

/-- An FP state that is 0xa5 in every byte except byte 100 of `_ymmUpper` (byte
4 of the upper half of register 6), which is 0. -/
def upperByte100Cleared : FPSTATE :=
  ⟨fun _ _ => 0xa5, fun b => if b = 100 then 0 else 0xa5⟩

/-- Modelled from the spec: `CONTEXT_CHANGE_REASON` is declared in pin.H, which
is not part of the sources; the reasons for which Pin calls a context change
function. -/
inductive CONTEXT_CHANGE_REASON where
  | CONTEXT_CHANGE_REASON_FATALSIGNAL
  | CONTEXT_CHANGE_REASON_SIGNAL
  | CONTEXT_CHANGE_REASON_SIGRETURN
  | CONTEXT_CHANGE_REASON_APC
  | CONTEXT_CHANGE_REASON_EXCEPTION
  | CONTEXT_CHANGE_REASON_CALLBACK
deriving DecidableEq, Repr

/-- `OnException` (lines 343-383). `ctxtTo` is `none` for a NULL pointer. With
`TARGET_IA32E`, `NUM_YMM_REGS` is 16, `StackEntryAlignment` is 8,
`sizeof (ADDRINT)` is 8 and `ADDRINT` arithmetic is modulo 2^64; without it
`NUM_YMM_REGS` is 8. The result is `ctxtTo` after the call, or the exit of
`CheckAndSetFpContextYmmRegs`. -/
def OnException (TARGET_IA32E : Bool) (dumpYmmRegsAtExceptionAddr : Nat)
    (reason : CONTEXT_CHANGE_REASON) (ctxtFrom : CONTEXT) (ctxtTo : Option CONTEXT) :
    Except (Int × Contexts) (Option CONTEXT) :=
  match ctxtTo with
  | none => .ok none
  | some ctxtTo =>
    -- lines 350-355
    if reason = .CONTEXT_CHANGE_REASON_SIGRETURN ∨ reason = .CONTEXT_CHANGE_REASON_APC ∨
        reason = .CONTEXT_CHANGE_REASON_CALLBACK ∨
        reason = .CONTEXT_CHANGE_REASON_FATALSIGNAL then
      .ok (some ctxtTo)
    else
      -- line 367
      match CheckAndSetFpContextYmmRegs (if TARGET_IA32E then 16 else 8) ⟨ctxtFrom, ctxtTo⟩ with
      | .error e => .error e
      | .ok w =>
        if TARGET_IA32E then
          -- line 375
          let ctxtTo := { w.ctxtTo with REG_INST_PTR := dumpYmmRegsAtExceptionAddr }
          -- line 377
          let curSp := ctxtTo.REG_STACK_PTR
          -- line 378
          let currentAlignment : Int := wrapINT32 ((curSp % 16 : Nat) : Int)
          -- line 379
          let newSp : Int :=
            ((curSp : Int) - GetStackAdjustment 8 currentAlignment 8) % 18446744073709551616
          .ok (some { ctxtTo with REG_STACK_PTR := newSp.toNat })
        else
          -- line 381
          .ok (some { w.ctxtTo with REG_INST_PTR := dumpYmmRegsAtExceptionAddr })

end SetFpContextYmm

/-! ## Theorems: exceptionAddress_lin.cpp -/

namespace ExceptionAddress

/-- C1: when the program counter equals the entry's `ip` and the exception
address equals the program counter, `toolHandler` returns `EHR_HANDLED`, the
instruction pointer of the context is the entry's `fixIp`, and the flag the
entry points to is `true` afterwards. -/
theorem toolHandler_matched_validated (e : ToolException) (exptAddr : ADDRINT)
    (pctxt : PHYSICAL_CONTEXT) (flags : Flags)
    (hpc : pctxt.REG_INST_PTR = e.ip) (haddr : exptAddr = pctxt.REG_INST_PTR) :
    (toolHandler e exptAddr pctxt flags).result = .EHR_HANDLED ∧
    (toolHandler e exptAddr pctxt flags).pctxt.REG_INST_PTR = e.fixIp ∧
    (toolHandler e exptAddr pctxt flags).flags.read e.handled = true := by
  subst haddr
  refine ⟨?_, ?_, ?_⟩ <;> simp only [toolHandler, hpc, if_true, ne_eq, not_true_eq_false, if_false]
  cases e.handled <;> rfl

/-- Witness of C1 on the table entry 0x1000 -> 0x2000 with a fault at 0x1000. -/
theorem toolHandler_matched_validated_witness :
    (toolHandler ⟨0x1000, 0x2000, "int div zero", .handledToolIntDivZero⟩ 0x1000
        ⟨0x1000⟩ Flags.initial).result = .EHR_HANDLED ∧
    (toolHandler ⟨0x1000, 0x2000, "int div zero", .handledToolIntDivZero⟩ 0x1000
        ⟨0x1000⟩ Flags.initial).pctxt.REG_INST_PTR = 0x2000 ∧
    (toolHandler ⟨0x1000, 0x2000, "int div zero", .handledToolIntDivZero⟩ 0x1000
        ⟨0x1000⟩ Flags.initial).flags.read .handledToolIntDivZero = true :=
  toolHandler_matched_validated ⟨0x1000, 0x2000, "int div zero", .handledToolIntDivZero⟩
    0x1000 ⟨0x1000⟩ Flags.initial rfl rfl

/-- C2: when the program counter equals the entry's `ip` but the exception
address differs from it, `toolHandler` still returns `EHR_HANDLED` and sets the
instruction pointer to `fixIp`, and every flag (the entry's one included) keeps
the value it had before the call. -/
theorem toolHandler_matched_mismatch (e : ToolException) (exptAddr : ADDRINT)
    (pctxt : PHYSICAL_CONTEXT) (flags : Flags)
    (hpc : pctxt.REG_INST_PTR = e.ip) (haddr : exptAddr ≠ pctxt.REG_INST_PTR) :
    (toolHandler e exptAddr pctxt flags).result = .EHR_HANDLED ∧
    (toolHandler e exptAddr pctxt flags).pctxt.REG_INST_PTR = e.fixIp ∧
    (toolHandler e exptAddr pctxt flags).flags = flags ∧
    (toolHandler e exptAddr pctxt flags).flags.read e.handled = flags.read e.handled := by
  have hne : exptAddr ≠ e.ip := hpc ▸ haddr
  simp [toolHandler, hpc, hne]

/-- Witness of C2: entry 0x1000 -> 0x2000, fault at pc 0x1000 with exception
address 0x1; the flag stays false. -/
theorem toolHandler_matched_mismatch_witness :
    (toolHandler ⟨0x1000, 0x2000, "int div zero", .handledToolIntDivZero⟩ 0x1
        ⟨0x1000⟩ Flags.initial).result = .EHR_HANDLED ∧
    (toolHandler ⟨0x1000, 0x2000, "int div zero", .handledToolIntDivZero⟩ 0x1
        ⟨0x1000⟩ Flags.initial).pctxt.REG_INST_PTR = 0x2000 ∧
    (toolHandler ⟨0x1000, 0x2000, "int div zero", .handledToolIntDivZero⟩ 0x1
        ⟨0x1000⟩ Flags.initial).flags = Flags.initial ∧
    (toolHandler ⟨0x1000, 0x2000, "int div zero", .handledToolIntDivZero⟩ 0x1
        ⟨0x1000⟩ Flags.initial).flags.read .handledToolIntDivZero =
      Flags.initial.read .handledToolIntDivZero :=
  toolHandler_matched_mismatch ⟨0x1000, 0x2000, "int div zero", .handledToolIntDivZero⟩
    0x1 ⟨0x1000⟩ Flags.initial rfl (by decide)

/-- C3: when the program counter differs from the entry's `ip`, whatever the
exception address, `toolHandler` returns `EHR_UNHANDLED` and leaves the context
and the flags unchanged; and `toolHandler` returns `EHR_HANDLED` if and only if
the program counter equals the entry's `ip`. -/
theorem toolHandler_unmatched (e : ToolException) (exptAddr : ADDRINT)
    (pctxt : PHYSICAL_CONTEXT) (flags : Flags) :
    (pctxt.REG_INST_PTR ≠ e.ip →
      (toolHandler e exptAddr pctxt flags).result = .EHR_UNHANDLED ∧
      (toolHandler e exptAddr pctxt flags).pctxt = pctxt ∧
      (toolHandler e exptAddr pctxt flags).flags = flags) ∧
    ((toolHandler e exptAddr pctxt flags).result = .EHR_HANDLED ↔
      pctxt.REG_INST_PTR = e.ip) := by
  constructor
  · intro hne
    simp [toolHandler, hne]
  · by_cases hpc : pctxt.REG_INST_PTR = e.ip
    · by_cases haddr : exptAddr = e.ip <;> simp [toolHandler, hpc, haddr]
    · simp [toolHandler, hpc]

/-- Witness of C3: entry 0x1000 -> 0x2000, fault at pc 0x9999. -/
theorem toolHandler_unmatched_witness :
    (0x9999 : ADDRINT) ≠ 0x1000 ∧
    (toolHandler ⟨0x1000, 0x2000, "int div zero", .handledToolIntDivZero⟩ 0x9999
        ⟨0x9999⟩ Flags.initial).result = .EHR_UNHANDLED ∧
    (toolHandler ⟨0x1000, 0x2000, "int div zero", .handledToolIntDivZero⟩ 0x9999
        ⟨0x9999⟩ Flags.initial).pctxt = ⟨0x9999⟩ ∧
    (toolHandler ⟨0x1000, 0x2000, "int div zero", .handledToolIntDivZero⟩ 0x9999
        ⟨0x9999⟩ Flags.initial).flags = Flags.initial :=
  ⟨by decide,
   (toolHandler_unmatched ⟨0x1000, 0x2000, "int div zero", .handledToolIntDivZero⟩
      0x9999 ⟨0x9999⟩ Flags.initial).1 (by decide)⟩

/-- The scan of `onSIGFPE` skips a prefix that does not contain `ip`. -/
theorem onSIGFPE_loop_skip (exptAddr ip : ADDRINT) (ctxt : PHYSICAL_CONTEXT) (flags : Flags)
    (pre rest : List ADDRINT) (hpre : ip ∉ pre) :
    onSIGFPE_loop exptAddr ip ctxt flags (pre ++ rest) =
      onSIGFPE_loop exptAddr ip ctxt flags rest := by
  induction pre with
  | nil => rfl
  | cons a pre ih =>
    have ha : a ≠ ip := fun h => hpre (h ▸ List.mem_cons_self a pre)
    have hrest : ip ∉ pre := fun h => hpre (List.mem_cons_of_mem a h)
    simp only [List.cons_append, onSIGFPE_loop, ha, if_false]
    exact ih hrest

/-- C10: when the first occurrence of the program counter in `inslist` is
followed by another element `next` (the list is `pre ++ ip :: next :: post`
with `ip` not in `pre`), `onSIGFPE` returns (it does not read the end
iterator), returns `false`, sets the instruction pointer to `next`, and sets
`handledApplicationDivZero` to true exactly when the exception address equals
`ip`, leaving the flags unchanged otherwise. -/
theorem onSIGFPE_skip_to_successor (pre post : List ADDRINT) (next exptAddr : ADDRINT)
    (ctxt : PHYSICAL_CONTEXT) (flags : Flags) (hpre : ctxt.REG_INST_PTR ∉ pre) :
    onSIGFPE (pre ++ ctxt.REG_INST_PTR :: next :: post) exptAddr ctxt flags =
      some ⟨false, { ctxt with REG_INST_PTR := next },
        if exptAddr = ctxt.REG_INST_PTR then { flags with handledApplicationDivZero := true }
        else flags⟩ := by
  unfold onSIGFPE
  rw [onSIGFPE_loop_skip exptAddr ctxt.REG_INST_PTR ctxt flags pre _ hpre]
  by_cases h : exptAddr = ctxt.REG_INST_PTR <;> simp [onSIGFPE_loop, h]

/-- Witness of C10: instructions 0x10, 0x13, 0x15, 0x18 with the fault at 0x13. -/
theorem onSIGFPE_skip_to_successor_witness :
    onSIGFPE ([0x10] ++ 0x13 :: 0x15 :: [0x18]) 0x13 ⟨0x13⟩ Flags.initial =
      some ⟨false, ⟨0x15⟩,
        if (0x13 : ADDRINT) = 0x13 then { Flags.initial with handledApplicationDivZero := true }
        else Flags.initial⟩ :=
  onSIGFPE_skip_to_successor [0x10] [0x18] 0x15 0x13 ⟨0x13⟩ Flags.initial (by decide)

end ExceptionAddress

/-! ## Theorems: set_fp_context_ymm_regs_xmms_spilled.cpp -/

namespace SetFpContextYmm

theorem forLoopE_unit_ok {ε : Type} (body : Nat → Unit → Except ε Unit) (count start : Nat)
    (h : ∀ k, start ≤ k → k < start + count → body k () = .ok ()) :
    forLoopE body count start () = .ok () := by
  induction count generalizing start with
  | zero => rfl
  | succ n ih =>
    rw [forLoopE, h start (le_refl _) (by omega)]
    exact ih (start + 1) (fun k h1 h2 => h k (by omega) (by omega))

theorem forLoopE_unit_error {ε : Type} (body : Nat → Unit → Except ε Unit) (e : ε)
    (count start : Nat)
    (hall : ∀ k, start ≤ k → k < start + count → body k () = .ok () ∨ body k () = .error e)
    (hex : ∃ k, start ≤ k ∧ k < start + count ∧ body k () = .error e) :
    forLoopE body count start () = .error e := by
  induction count generalizing start with
  | zero =>
    obtain ⟨k, h1, h2, _⟩ := hex
    omega
  | succ n ih =>
    rw [forLoopE]
    rcases hall start (le_refl _) (by omega) with h0 | h0
    · rw [h0]
      apply ih (start + 1) (fun k h1 h2 => hall k (by omega) (by omega))
      obtain ⟨k, h1, h2, h3⟩ := hex
      refine ⟨k, ?_, by omega, h3⟩
      by_contra hlt
      have hk : k = start := by omega
      rw [hk, h0] at h3
      cases h3
    · rw [h0]

theorem verifyXmmBytes_ok (N : Nat) (fp : FPSTATE) (v : Nat) (w : Contexts)
    (h : ∀ i, i < N → ∀ j, j < 16 → fp.xmms i j = v) :
    verifyXmmBytes N fp v w = .ok () := by
  unfold verifyXmmBytes
  apply forLoopE_unit_ok
  intro i _ hi
  apply forLoopE_unit_ok
  intro j _ hj
  simp [XMMREG.vec8, h i (by omega) j (by omega)]

theorem verifyXmmBytes_error (N : Nat) (fp : FPSTATE) (v : Nat) (w : Contexts)
    (h : ∃ i, i < N ∧ ∃ j, j < 16 ∧ fp.xmms i j ≠ v) :
    verifyXmmBytes N fp v w = .error (-1, w) := by
  unfold verifyXmmBytes
  have hbody : ∀ i j : Nat,
      (if (fp.xmms i).vec8 j ≠ v then (Except.error (-1, w) : Except (Int × Contexts) Unit)
        else .ok ()) = .ok () ∨
      (if (fp.xmms i).vec8 j ≠ v then (Except.error (-1, w) : Except (Int × Contexts) Unit)
        else .ok ()) = .error (-1, w) := by
    intro i j
    by_cases hb : (fp.xmms i).vec8 j = v
    · left; simp [hb]
    · right; simp [hb]
  apply forLoopE_unit_error
  · intro i _ _
    by_cases hrow : ∀ j, j < 16 → fp.xmms i j = v
    · left
      apply forLoopE_unit_ok
      intro j _ hj
      simp [XMMREG.vec8, hrow j (by omega)]
    · right
      apply forLoopE_unit_error
      · intro j _ _
        exact hbody i j
      · push_neg at hrow
        obtain ⟨j, hj, hne⟩ := hrow
        exact ⟨j, Nat.zero_le _, by omega, by simp [XMMREG.vec8, hne]⟩
  · obtain ⟨i, hi, j, hj, hne⟩ := h
    refine ⟨i, Nat.zero_le _, by omega, ?_⟩
    apply forLoopE_unit_error
    · intro j _ _
      exact hbody i j
    · exact ⟨j, Nat.zero_le _, by omega, by simp [XMMREG.vec8, hne]⟩

theorem setXmm_set_vec8 (fp : FPSTATE) (i j v : Nat) :
    fp.setXmm i ((fp.xmms i).set_vec8 j v) =
      ⟨fun k b => if k = i ∧ b = j then v % 256 else fp.xmms k b, fp.ymmUpper⟩ := by
  unfold FPSTATE.setXmm XMMREG.set_vec8 storeLE
  congr 1
  funext k b
  by_cases hk : k = i
  · by_cases hb : b = j
    · simp [hk, hb]
    · have : ¬ (j ≤ b ∧ b < j + 1) := by omega
      simp [hk, hb, this]
  · simp [hk]

theorem forLoop_set_vec8 (i v count start : Nat) (fp : FPSTATE) :
    forLoop (fun j fp => fp.setXmm i ((fp.xmms i).set_vec8 j v)) count start fp =
      ⟨fun k b => if k = i ∧ start ≤ b ∧ b < start + count then v % 256 else fp.xmms k b,
        fp.ymmUpper⟩ := by
  induction count generalizing start fp with
  | zero =>
    simp only [forLoop]
    cases fp
    congr 1
    funext k b
    have : ¬ (k = i ∧ start ≤ b ∧ b < start + 0) := by omega
    rw [if_neg this]
  | succ n ih =>
    rw [forLoop, ih, setXmm_set_vec8]
    congr 1
    funext k b
    by_cases h1 : k = i ∧ start + 1 ≤ b ∧ b < start + 1 + n
    · have h2 : k = i ∧ start ≤ b ∧ b < start + (n + 1) := ⟨h1.1, by omega, by omega⟩
      simp only [if_pos h1, if_pos h2]
    · by_cases h3 : k = i ∧ b = start
      · have h2 : k = i ∧ start ≤ b ∧ b < start + (n + 1) := ⟨h3.1, by omega, by omega⟩
        simp only [if_neg h1, if_pos h3, if_pos h2]
      · have h2 : ¬ (k = i ∧ start ≤ b ∧ b < start + (n + 1)) := by
          intro h
          rcases h with ⟨hk, hb1, hb2⟩
          by_cases hbs : b = start
          · exact h3 ⟨hk, hbs⟩
          · exact h1 ⟨hk, by omega, by omega⟩
        simp only [if_neg h1, if_neg h3, if_neg h2]

theorem forLoop_fill_xmms (v count start : Nat) (fp : FPSTATE) :
    forLoop (fun i fp =>
        forLoop (fun j fp => fp.setXmm i ((fp.xmms i).set_vec8 j v)) 16 0 fp) count start fp =
      ⟨fun k b => if (start ≤ k ∧ k < start + count) ∧ b < 16 then v % 256 else fp.xmms k b,
        fp.ymmUpper⟩ := by
  induction count generalizing start fp with
  | zero =>
    simp only [forLoop]
    cases fp
    congr 1
    funext k b
    have : ¬ ((start ≤ k ∧ k < start + 0) ∧ b < 16) := by omega
    rw [if_neg this]
  | succ n ih =>
    rw [forLoop, ih, forLoop_set_vec8]
    congr 1
    funext k b
    by_cases hb : b < 16
    · by_cases h1 : start + 1 ≤ k ∧ k < start + 1 + n
      · have h2 : start ≤ k ∧ k < start + (n + 1) := by omega
        simp [h1, h2, hb]
      · by_cases h3 : k = start
        · have h2 : start ≤ k ∧ k < start + (n + 1) := by omega
          simp [h1, h2, hb, h3]
        · have h2 : ¬ (start ≤ k ∧ k < start + (n + 1)) := by omega
          simp [h1, h2, h3]
    · simp [hb]

theorem forLoop_fill_xmms_from_zero (v count : Nat) (fp : FPSTATE) :
    forLoop (fun i fp =>
        forLoop (fun j fp => fp.setXmm i ((fp.xmms i).set_vec8 j v)) 16 0 fp) count 0 fp =
      ⟨fun k b => if k < count ∧ b < 16 then v % 256 else fp.xmms k b, fp.ymmUpper⟩ := by
  rw [forLoop_fill_xmms]
  congr 1
  funext k b
  simp

/-- The call on a `ctxtFrom` whose legacy bytes are all 0xa5: it returns, the
legacy bytes of registers below `NUM_YMM_REGS` in `ctxtTo` are 0x5a, the rest
of the FP state of `ctxtTo`, `_ymmUpper` included, is the one of `ctxtFrom`,
and `ctxtFrom` is as before. -/
theorem CheckAndSetFpContextYmmRegs_ok (N : Nat) (w : Contexts)
    (h : ∀ i, i < N → ∀ j, j < 16 → w.ctxtFrom.fpstate.xmms i j = 0xa5) :
    CheckAndSetFpContextYmmRegs N w =
      .ok ⟨w.ctxtFrom,
        { w.ctxtTo with
          fpstate :=
            ⟨fun k b => if k < N ∧ b < 16 then 0x5a else w.ctxtFrom.fpstate.xmms k b,
             w.ctxtFrom.fpstate.ymmUpper⟩ }⟩ := by
  unfold CheckAndSetFpContextYmmRegs
  simp only [PIN_GetContextFPState, PIN_SetContextFPState]
  rw [verifyXmmBytes_ok N _ 0xa5 w h]
  simp only [forLoop_fill_xmms_from_zero]
  rw [verifyXmmBytes_ok]
  intro i hi j hj
  have hcond : i < N ∧ j < 16 := ⟨hi, hj⟩
  simp only [if_pos hcond]

/-- The call on a `ctxtFrom` with a legacy byte that is not 0xa5: `exit (-1)`
with both contexts as they were. -/
theorem CheckAndSetFpContextYmmRegs_exit (N : Nat) (w : Contexts)
    (h : ∃ i, i < N ∧ ∃ j, j < 16 ∧ w.ctxtFrom.fpstate.xmms i j ≠ 0xa5) :
    CheckAndSetFpContextYmmRegs N w = .error (-1, w) := by
  unfold CheckAndSetFpContextYmmRegs
  simp only [PIN_GetContextFPState]
  rw [verifyXmmBytes_error N _ 0xa5 w h]

/-- C4 (the code falls short of the claim): with `NUM_YMM_REGS = 16`, `ctxtFrom`
and `ctxtTo` both 0xa5 in every byte of both halves, the call returns with the
legacy bytes of `ctxtTo` set to 0x5a but with every byte of `_ymmUpper` of
`ctxtTo` still 0xa5, not 0x5a; `ctxtFrom` is unmodified. -/
theorem CheckAndSetFpContextYmmRegs_upper_half_not_written :
    CheckAndSetFpContextYmmRegs 16 ⟨filledContext 0xa5, filledContext 0xa5⟩ =
      .ok ⟨filledContext 0xa5,
        ⟨⟨fun k b => if k < 16 ∧ b < 16 then 0x5a else 0xa5,
          fun _ => 0xa5⟩, 0, 0⟩⟩ :=
  CheckAndSetFpContextYmmRegs_ok 16 ⟨filledContext 0xa5, filledContext 0xa5⟩
    (fun _ _ _ _ => rfl)

/-- C5 (the code falls short of the claim): with `NUM_YMM_REGS = 16` and a
`ctxtFrom` whose byte 0 of the upper half of register 0 is 0 instead of 0xa5
(every other byte 0xa5), the call does not exit: it returns, and the FP state
has been committed into `ctxtTo` (which was all zero before). -/
theorem CheckAndSetFpContextYmmRegs_upper_half_not_checked :
    CheckAndSetFpContextYmmRegs 16 ⟨upperByteCleared, filledContext 0⟩ =
      .ok ⟨upperByteCleared,
        ⟨⟨fun k b => if k < 16 ∧ b < 16 then 0x5a else 0xa5,
          fun k => if k = 0 then 0 else 0xa5⟩, 0, 0⟩⟩ :=
  CheckAndSetFpContextYmmRegs_ok 16 ⟨upperByteCleared, filledContext 0⟩
    (fun _ _ _ _ => rfl)

/-- In either direction the remainder of C, `Int.tmod`, by 16 lies strictly
between -16 and 16. -/
theorem tmod16_bounds (x : Int) : -16 < Int.tmod x 16 ∧ Int.tmod x 16 < 16 := by
  constructor
  · rcases x with m | m
    · exact lt_of_lt_of_le (by decide) (Int.tmod_nonneg (16 : Int) (Int.ofNat_nonneg m))
    · have h : Int.tmod (Int.negSucc m) 16 = -((((m + 1) % 16 : Nat)) : Int) := rfl
      rw [h]
      omega
  · exact Int.tmod_lt_of_pos x (by decide)

/-- The fix-up of lines 312-316 turns the truncating remainder into the
Euclidean one. -/
theorem tmod16_fixup (x : Int) :
    (if Int.tmod x 16 < 0 then wrapINT32 (16 + Int.tmod x 16) else Int.tmod x 16) = x % 16 := by
  have hb := tmod16_bounds x
  have hd := Int.tmod_add_tdiv x 16
  unfold wrapINT32
  split_ifs with h <;> omega

theorem wrapINT32_emod16 (x : Int) : wrapINT32 x % 16 = x % 16 := by
  unfold wrapINT32
  omega

theorem wrapINT32_of_range (x : Int) (h1 : -2147483648 ≤ x) (h2 : x ≤ 2147483647) :
    wrapINT32 x = x := by
  unfold wrapINT32
  omega

/-- Past the guard, wrapping or not, the result is the Euclidean residue. -/
theorem GetStackAdjustment_eq_emod (A c f : Int) (hA : A ≠ 0) (hc : c ≠ 0) :
    GetStackAdjustment A c f = (c - f - A) % 16 := by
  unfold GetStackAdjustment
  rw [if_neg (by simp [hA, hc])]
  simp only []
  rw [tmod16_fixup, wrapINT32_emod16]
  have := wrapINT32_emod16 (c - f)
  omega

/-- C6: `GetStackAdjustment(0, frameSize) = 0` for every `frameSize`, and when
`StackEntryAlignment` is 0 the result is 0 for every `currentAlignment` and
`frameSize`. -/
theorem GetStackAdjustment_zero_guard (A c f : Int) :
    GetStackAdjustment A 0 f = 0 ∧ GetStackAdjustment 0 c f = 0 := by
  constructor <;> simp [GetStackAdjustment]

/-- C7: for every `StackEntryAlignment` (nonzero or not) and all inputs, in
particular all pairs of 32-bit signed inputs, negative ones and ones where the
subtraction wraps modulo 2^32 included, the result lies in 0 .. 15. -/
theorem GetStackAdjustment_range (A c f : Int) :
    0 ≤ GetStackAdjustment A c f ∧ GetStackAdjustment A c f ≤ 15 := by
  by_cases hg : A = 0 ∨ c = 0
  · simp [GetStackAdjustment, hg]
  · have hA : A ≠ 0 := fun h => hg (Or.inl h)
    have hc : c ≠ 0 := fun h => hg (Or.inr h)
    rw [GetStackAdjustment_eq_emod A c f hA hc]
    omega

/-- C8, as stated, fails: with `StackEntryAlignment = 8`, a 16-aligned stack
pointer 16 and `frameSize = 0` the guard returns 0 and the entry stack pointer
has residue 0, not 8. -/
theorem GetStackAdjustment_alignment_counterexample :
    (8 : Int) ≠ 0 ∧
    (((16 : Nat) : Int) - GetStackAdjustment 8 (((16 % 16 : Nat)) : Int) 0 - 0) % 16 ≠
      (8 : Int) % 16 := by
  decide

/-- C8, amended: for every nonzero `StackEntryAlignment` `A`, every stack
pointer `sp` and every `frameSize` `f`, with
`adj = GetStackAdjustment(sp mod 16, f)`, the residue `(sp - adj - f) mod 16`
equals `A mod 16` if and only if `sp mod 16` is not 0 or `f + A` is a multiple
of 16 (residues modulo 16 are the same with the arithmetic taken modulo 2^32
or 2^64). -/
theorem GetStackAdjustment_alignment (A : Int) (sp : Nat) (f : Int) (hA : A ≠ 0) :
    (((sp : Int) - GetStackAdjustment A (((sp % 16 : Nat)) : Int) f - f) % 16 = A % 16) ↔
      (sp % 16 ≠ 0 ∨ (f + A) % 16 = 0) := by
  by_cases hc : sp % 16 = 0
  · have hz : (((sp % 16 : Nat)) : Int) = 0 := by simp [hc]
    have hadj : GetStackAdjustment A 0 f = 0 := by simp [GetStackAdjustment]
    rw [hz, hadj]
    omega
  · have hnz : (((sp % 16 : Nat)) : Int) ≠ 0 := by omega
    rw [GetStackAdjustment_eq_emod A _ f hA hnz]
    omega

/-- Witness of the amended C8: the 64-bit configuration (`A = 8`, `f = 8`) at
the stack pointer 0x7ffc, which is not 16-aligned. -/
theorem GetStackAdjustment_alignment_witness :
    (((0x7ffc : Nat) : Int) - GetStackAdjustment 8 (((0x7ffc % 16 : Nat)) : Int) 8 - 8) % 16 =
      (8 : Int) % 16 :=
  (GetStackAdjustment_alignment 8 0x7ffc 8 (by decide)).2 (Or.inl (by decide))

/-- C9: for nonzero `StackEntryAlignment` `A`, `currentAlignment` `c` not 0 and
`frameSize` `f` such that neither `c - f` nor `c - f - A` overflows `INT32`,
the result is the truncating remainder of `c - f - A` by 16 with 16 added when
it is negative, and that equals the Euclidean residue of `c - f - A` modulo
16. -/
theorem GetStackAdjustment_formula (A c f : Int) (hA : A ≠ 0) (hc : c ≠ 0)
    (h1 : -2147483648 ≤ c - f ∧ c - f ≤ 2147483647)
    (h2 : -2147483648 ≤ c - f - A ∧ c - f - A ≤ 2147483647) :
    GetStackAdjustment A c f =
      (if Int.tmod (c - f - A) 16 < 0 then 16 + Int.tmod (c - f - A) 16
        else Int.tmod (c - f - A) 16) ∧
    GetStackAdjustment A c f = (c - f - A) % 16 := by
  refine ⟨?_, GetStackAdjustment_eq_emod A c f hA hc⟩
  have hb := tmod16_bounds (c - f - A)
  unfold GetStackAdjustment
  rw [if_neg (by simp [hA, hc])]
  simp only []
  rw [wrapINT32_of_range (c - f) h1.1 h1.2, wrapINT32_of_range (c - f - A) h2.1 h2.2]
  split_ifs with h
  · exact wrapINT32_of_range _ (by omega) (by omega)
  · rfl

/-- Witness of C9: `A = 8`, `c = 4`, `f = 8`: `4 - 8 - 8 = -12`, truncating
remainder -12, fixed up to 4. -/
theorem GetStackAdjustment_formula_witness :
    GetStackAdjustment 8 4 8 =
      (if Int.tmod ((4 : Int) - 8 - 8) 16 < 0 then 16 + Int.tmod ((4 : Int) - 8 - 8) 16
        else Int.tmod ((4 : Int) - 8 - 8) 16) ∧
    GetStackAdjustment 8 4 8 = ((4 : Int) - 8 - 8) % 16 :=
  GetStackAdjustment_formula 8 4 8 (by decide) (by decide) (by decide) (by decide)

end SetFpContextYmm

/-! ## Theorems: exception_in_mt_attach_app.cpp -/

namespace ExceptionInMtAttach

/-- The loop of `CancelAllThreads` only appends cancel requests, one per index
in increasing order, and changes nothing else. -/
theorem CancelAllThreads_loop_eq (count i : Nat) (s : State) :
    CancelAllThreads_loop count i s =
      { s with trace := s.trace ++ (List.range' i count).map (fun k => Event.cancel (s.thHandle k)) } := by
  induction count generalizing i s with
  | zero => simp [CancelAllThreads_loop]
  | succ n ih =>
    rw [CancelAllThreads_loop, ih]
    simp [List.range'_succ]

theorem CancelAllThreads_eq (s : State) :
    CancelAllThreads s =
      { s with trace := s.trace ++
          (List.range s.numOfSecondaryThreads).map (fun k => Event.cancel (s.thHandle k)) } := by
  rw [CancelAllThreads, CancelAllThreads_loop_eq, List.range_eq_range']

/-- C11: in a state where `allThreadsCanceled` is already true, `SigUsr1Handler`
leaves the whole state unchanged, the list of issued events included (no
cancellation request is issued); and from any state, running the handler twice
ends in the same state, with the same events issued, as running it once. -/
theorem SigUsr1Handler_idempotent (s : State) :
    (s.allThreadsCanceled = true → SigUsr1Handler s = s) ∧
    SigUsr1Handler (SigUsr1Handler s) = SigUsr1Handler s := by
  constructor
  · intro h
    simp [SigUsr1Handler, h]
  · by_cases h : s.allThreadsCanceled = true
    · simp [SigUsr1Handler, h]
    · simp [SigUsr1Handler, h]

/-- Witness of C11: four workers, the flag already true, one event issued
before. -/
theorem SigUsr1Handler_idempotent_witness :
    SigUsr1Handler ⟨true, 4, fun i => 100 + i, [Event.cancel 7]⟩ =
      ⟨true, 4, fun i => 100 + i, [Event.cancel 7]⟩ :=
  (SigUsr1Handler_idempotent ⟨true, 4, fun i => 100 + i, [Event.cancel 7]⟩).1 rfl

/-- C12: `allThreadsCanceled` is false initially; `CancelAllThreads` never
writes it; and when `SigUsr1Handler` runs with the flag false, the events it
issues are exactly one cancel request for each handle `thHandle[0..N-1]`, in
index order, followed by the write of the flag, which is the last event, after
the N-th request; the flag is true afterwards. -/
theorem SigUsr1Handler_cancellation_order (s : State) :
    (∀ (n : Nat) (th : Nat → pthread_t), (State.initial n th).allThreadsCanceled = false) ∧
    (CancelAllThreads s).allThreadsCanceled = s.allThreadsCanceled ∧
    (s.allThreadsCanceled = false →
      (SigUsr1Handler s).trace =
        s.trace ++ (List.range s.numOfSecondaryThreads).map (fun i => Event.cancel (s.thHandle i))
          ++ [Event.setAllThreadsCanceled] ∧
      (SigUsr1Handler s).allThreadsCanceled = true) := by
  refine ⟨fun _ _ => rfl, ?_, ?_⟩
  · rw [CancelAllThreads_eq]
  · intro h
    simp [SigUsr1Handler, h, CancelAllThreads_eq]

/-- Witness of C12: four workers with handles 100 .. 103. -/
theorem SigUsr1Handler_cancellation_order_witness :
    (SigUsr1Handler (State.initial 4 (fun i => 100 + i))).trace =
      (State.initial 4 (fun i => 100 + i)).trace ++
        (List.range 4).map (fun i => Event.cancel (100 + i)) ++ [Event.setAllThreadsCanceled] ∧
    (SigUsr1Handler (State.initial 4 (fun i => 100 + i))).allThreadsCanceled = true :=
  (SigUsr1Handler_cancellation_order (State.initial 4 (fun i => 100 + i))).2.2 rfl

end ExceptionInMtAttach

namespace ExceptionAddress

/-- C13: `Fini` fails the run (`exit(-1)`) if and only if at least one of the
four flags is false, and returns normally (success) if and only if all four
are true. -/
theorem Fini_verdict (flags : Flags) :
    (Fini flags = .error (-1) ↔
      (flags.handledPinException = false ∨ flags.handledToolAccessInvalidAddress = false ∨
       flags.handledToolIntDivZero = false ∨ flags.handledApplicationDivZero = false)) ∧
    (Fini flags = .ok () ↔
      (flags.handledPinException = true ∧ flags.handledToolAccessInvalidAddress = true ∧
       flags.handledToolIntDivZero = true ∧ flags.handledApplicationDivZero = true)) := by
  rcases flags with ⟨a, b, c, d⟩
  cases a <;> cases b <;> cases c <;> cases d <;> simp [Fini]

/-- C17 (the code falls short of the claim): with the recorded instructions
0x10, 0x13 and the program counter 0x13, which occurs in the list as its last
element, `onSIGFPE` advances the iterator to the end of the list and reads it:
the read is not a valid element. -/
theorem onSIGFPE_reads_end_of_list :
    (0x13 : ADDRINT) ∈ [0x10, 0x13] ∧
    onSIGFPE [0x10, 0x13] 0x13 ⟨0x13⟩ Flags.initial = none := by
  decide

end ExceptionAddress

namespace SetFpContextYmm

theorem storeLE_inside (mem : Nat → Nat) (off width v b : Nat)
    (h1 : off ≤ b) (h2 : b < off + width) :
    storeLE mem off width v b = (v / 256 ^ (b - off)) % 256 := by
  simp [storeLE, h1, h2]

theorem storeLE_outside (mem : Nat → Nat) (off width v b : Nat)
    (h : b < off ∨ off + width ≤ b) :
    storeLE mem off width v b = mem b := by
  have : ¬ (off ≤ b ∧ b < off + width) := by omega
  simp [storeLE, this]

/-- Four bytes that are the little-endian bytes of `v` load as `v`. -/
theorem loadLE_four (mem : Nat → Nat) (off v : Nat) (hv : v < 4294967296)
    (h : ∀ t, t < 4 → mem (off + t) = (v / 256 ^ t) % 256) :
    loadLE mem off 4 = v := by
  have h0 := h 0 (by decide)
  have h1 := h 1 (by decide)
  have h2 := h 2 (by decide)
  have h3 := h 3 (by decide)
  norm_num at h0 h1 h2 h3
  simp only [loadLE, h0, h1, h2, h3, Nat.add_assoc]
  norm_num
  omega

theorem set_vec32_roundtrip (r : XMMREG) (k v : Nat) (hv : v < 4294967296) :
    (r.set_vec32 k v).vec32 k = v := by
  unfold XMMREG.vec32 XMMREG.set_vec32
  apply loadLE_four _ _ _ hv
  intro t ht
  rw [storeLE_inside _ _ _ _ _ (by omega) (by omega)]
  congr 3
  omega

/-- C14: on the 16 bytes of an `XMMREG` with little-endian views, for every
register, every lane `k < 4` and every 32-bit value `v`: after `_vec32[k] = v`
the read of `_vec32[k]` is `v`; every byte outside the lane is unchanged; the
four bytes of the lane read through `_vec8` are the little-endian bytes of
`v`; through `_vec16` they are the low and the high half of `v`; through
`_vec64` the half of lane `k / 2` that overlays them is `v`; and after four
32-bit writes of 0xacdcacdc both 64-bit lanes read 0xacdcacdcacdcacdc. -/
theorem XMMREG_vec32_aliasing (r : XMMREG) (k v : Nat) (hk : k < 4) (hv : v < 4294967296) :
    (r.set_vec32 k v).vec32 k = v ∧
    (∀ b, (b < 4 * k ∨ 4 * k + 4 ≤ b) → (r.set_vec32 k v).vec8 b = r.vec8 b) ∧
    (∀ t, t < 4 → (r.set_vec32 k v).vec8 (4 * k + t) = (v / 256 ^ t) % 256) ∧
    (r.set_vec32 k v).vec16 (2 * k) = v % 65536 ∧
    (r.set_vec32 k v).vec16 (2 * k + 1) = v / 65536 ∧
    ((r.set_vec32 k v).vec64 (k / 2) / 4294967296 ^ (k % 2)) % 4294967296 = v ∧
    ((((r.set_vec32 0 0xacdcacdc).set_vec32 1 0xacdcacdc).set_vec32 2 0xacdcacdc).set_vec32 3
        0xacdcacdc).vec64 0 = 0xacdcacdcacdcacdc ∧
    ((((r.set_vec32 0 0xacdcacdc).set_vec32 1 0xacdcacdc).set_vec32 2 0xacdcacdc).set_vec32 3
        0xacdcacdc).vec64 1 = 0xacdcacdcacdcacdc := by
  have hbyte : ∀ t, t < 4 → (r.set_vec32 k v) (4 * k + t) = (v / 256 ^ t) % 256 := by
    intro t ht
    unfold XMMREG.set_vec32
    rw [storeLE_inside _ _ _ _ _ (by omega) (by omega)]
    congr 3
    omega
  have h0 := hbyte 0 (by decide)
  have h1 := hbyte 1 (by decide)
  have h2 := hbyte 2 (by decide)
  have h3 := hbyte 3 (by decide)
  norm_num at h0 h1 h2 h3
  refine ⟨set_vec32_roundtrip r k v hv, ?_, hbyte, ?_, ?_, ?_, ?_, ?_⟩
  · intro b hb
    exact storeLE_outside _ _ _ _ _ hb
  · have e : 2 * (2 * k) = 4 * k := by omega
    simp only [XMMREG.vec16, loadLE, e, h0, h1]
    omega
  · have e : 2 * (2 * k + 1) = 4 * k + 2 := by omega
    simp only [XMMREG.vec16, loadLE, e, Nat.add_assoc, h2, h3]
    norm_num
    omega
  · interval_cases k <;>
      simp [XMMREG.vec64, XMMREG.set_vec32, loadLE, storeLE] <;> omega
  · simp [XMMREG.vec64, XMMREG.set_vec32, loadLE, storeLE]
  · simp [XMMREG.vec64, XMMREG.set_vec32, loadLE, storeLE]

/-- Witness of C14: lane 1 of an all-zero register, value 0xacdcacdc. -/
theorem XMMREG_vec32_aliasing_witness :
    (XMMREG.set_vec32 (fun _ => 0) 1 0xacdcacdc).vec32 1 = 0xacdcacdc :=
  (XMMREG_vec32_aliasing (fun _ => 0) 1 0xacdcacdc (by decide) (by decide)).1

end SetFpContextYmm

namespace SetFpContextYmm

/-- One iteration of the legacy mutation loop, byte by byte. -/
theorem setLegacyLanes_eq (pat i : Nat) (fp : FPSTATE) :
    setLegacyLanes pat i fp =
      ⟨fun k b => if k = i ∧ b < 16 then (pat / 256 ^ (b % 4)) % 256 else fp.xmms k b,
        fp.ymmUpper⟩ := by
  simp only [setLegacyLanes, FPSTATE.setXmm, if_true]
  congr 1
  funext k b
  by_cases hk : k = i
  · by_cases hb : b < 16
    · subst hk
      interval_cases b <;> simp [XMMREG.set_vec32, storeLE]
    · subst hk
      simp only [XMMREG.set_vec32, if_true]
      rw [storeLE_outside _ _ _ _ _ (by omega), storeLE_outside _ _ _ _ _ (by omega),
        storeLE_outside _ _ _ _ _ (by omega), storeLE_outside _ _ _ _ _ (by omega)]
      simp [hb]
  · simp [hk]

theorem forLoop_setLegacyLanes (pat count start : Nat) (fp : FPSTATE) :
    forLoop (fun i fp => setLegacyLanes pat i fp) count start fp =
      ⟨fun k b => if (start ≤ k ∧ k < start + count) ∧ b < 16 then (pat / 256 ^ (b % 4)) % 256
          else fp.xmms k b,
        fp.ymmUpper⟩ := by
  induction count generalizing start fp with
  | zero =>
    simp only [forLoop]
    cases fp
    congr 1
    funext k b
    have : ¬ ((start ≤ k ∧ k < start + 0) ∧ b < 16) := by omega
    rw [if_neg this]
  | succ n ih =>
    rw [forLoop, ih, setLegacyLanes_eq]
    congr 1
    funext k b
    by_cases hb : b < 16
    · by_cases h1 : start + 1 ≤ k ∧ k < start + 1 + n
      · have h2 : start ≤ k ∧ k < start + (n + 1) := by omega
        simp [h1, h2, hb]
      · by_cases h3 : k = start
        · have h2 : start ≤ k ∧ k < start + (n + 1) := by omega
          simp [h1, h2, hb, h3]
        · have h2 : ¬ (start ≤ k ∧ k < start + (n + 1)) := by omega
          simp [h1, h2, h3]
    · simp [hb]

/-- One iteration of the upper-half mutation loop, byte by byte. -/
theorem setUpperLanes_eq (pat : Nat) (s : MutState) :
    setUpperLanes pat s =
      ⟨⟨s.fp.xmms, fun b => if s.j ≤ b ∧ b < s.j + 16 then (pat / 256 ^ ((b - s.j) % 4)) % 256
          else s.fp.ymmUpper b⟩,
        s.j + 16, s.upperWrites ++ List.range' s.j 16⟩ := by
  simp only [setUpperLanes, MutState.setLane, FPSTATE.setUpperVec32]
  congr 1
  · congr 1
    funext b
    by_cases hb : s.j ≤ b ∧ b < s.j + 16
    · obtain ⟨t, ht⟩ : ∃ t, b = s.j + t := ⟨b - s.j, by omega⟩
      have ht16 : t < 16 := by omega
      subst ht
      interval_cases t <;> simp [storeLE]
    · rw [if_neg hb]
      rw [storeLE_outside _ _ _ _ _ (by omega), storeLE_outside _ _ _ _ _ (by omega),
        storeLE_outside _ _ _ _ _ (by omega), storeLE_outside _ _ _ _ _ (by omega)]
  · simp [List.range']

theorem forLoop_setUpperLanes (pat count start : Nat) (s : MutState) :
    forLoop (fun _ s => setUpperLanes pat s) count start s =
      ⟨⟨s.fp.xmms, fun b => if s.j ≤ b ∧ b < s.j + 16 * count then
            (pat / 256 ^ ((b - s.j) % 4)) % 256
          else s.fp.ymmUpper b⟩,
        s.j + 16 * count, s.upperWrites ++ List.range' s.j (16 * count)⟩ := by
  induction count generalizing start s with
  | zero =>
    simp only [forLoop]
    rcases s with ⟨⟨x, u⟩, j, l⟩
    simp only [Nat.mul_zero, Nat.add_zero, List.range'_zero, List.append_nil]
    congr 2
    funext b
    have : ¬ (j ≤ b ∧ b < j) := by omega
    rw [if_neg this]
  | succ n ih =>
    rw [forLoop, ih, setUpperLanes_eq]
    dsimp only
    congr 1
    · congr 1
      funext b
      by_cases h1 : s.j + 16 ≤ b ∧ b < s.j + 16 + 16 * n
      · have h2 : s.j ≤ b ∧ b < s.j + 16 * (n + 1) := by omega
        have e : (b - (s.j + 16)) % 4 = (b - s.j) % 4 := by omega
        simp only [if_pos h1, if_pos h2, e]
      · by_cases h3 : s.j ≤ b ∧ b < s.j + 16
        · have h2 : s.j ≤ b ∧ b < s.j + 16 * (n + 1) := by omega
          simp only [if_neg h1, if_pos h3, if_pos h2]
        · have h2 : ¬ (s.j ≤ b ∧ b < s.j + 16 * (n + 1)) := by omega
          simp only [if_neg h1, if_neg h3, if_neg h2]
    · omega
    · have e : 16 * (n + 1) = 16 * n + 16 := by omega
      rw [e, List.append_assoc, List.range'_append_1]

/-- The two mutation loops in closed form: the bytes of the legacy registers
below `N` and the bytes below `16 * N` of `_ymmUpper` are the little-endian
bytes of the pattern, nothing else changes, and the bytes of `_ymmUpper`
written are, in order, `0, 1, ..., 16 * N - 1`. -/
theorem setYmmPattern_eq (N pat : Nat) (fp : FPSTATE) :
    setYmmPattern N pat fp =
      ⟨⟨fun k b => if k < N ∧ b < 16 then (pat / 256 ^ (b % 4)) % 256 else fp.xmms k b,
          fun b => if b < 16 * N then (pat / 256 ^ (b % 4)) % 256 else fp.ymmUpper b⟩,
        16 * N, List.range (16 * N)⟩ := by
  simp only [setYmmPattern, forLoop_setLegacyLanes, forLoop_setUpperLanes]
  congr 1
  · congr 1
    · funext k b
      simp
    · funext b
      simp
  · simp
  · simp [List.range_eq_range']

theorem pattern_lanes (N pat : Nat) (hpat : pat < 4294967296) (x : Nat → XMMREG) (u : Nat → Nat)
    (i k : Nat) (hi : i < N) (hk : k < 4) :
    (((⟨fun k b => if k < N ∧ b < 16 then (pat / 256 ^ (b % 4)) % 256 else x k b,
        fun b => if b < 16 * N then (pat / 256 ^ (b % 4)) % 256 else u b⟩ : FPSTATE).xmms
          i).vec32 k = pat) ∧
    (((⟨fun k b => if k < N ∧ b < 16 then (pat / 256 ^ (b % 4)) % 256 else x k b,
        fun b => if b < 16 * N then (pat / 256 ^ (b % 4)) % 256 else u b⟩ : FPSTATE).upperAt
          (16 * i)).vec32 k = pat) := by
  constructor
  · apply loadLE_four _ _ _ hpat
    intro t ht
    have h1 : i < N ∧ 4 * k + t < 16 := ⟨hi, by omega⟩
    have e : (4 * k + t) % 4 = t := by omega
    simp only [if_pos h1, e]
  · apply loadLE_four _ _ _ hpat
    intro t ht
    have h1 : 16 * i + (4 * k + t) < 16 * N := by omega
    have e : (16 * i + (4 * k + t)) % 4 = t := by omega
    simp only [FPSTATE.upperAt, if_pos h1, e]

theorem forLoopE_verify_ok (a b : FPSTATE) (count start j : Nat)
    (h : ∀ i, start ≤ i → i < start + count →
      (a.xmms i).vec64 0 = (b.xmms i).vec64 0 ∧ (a.xmms i).vec64 1 = (b.xmms i).vec64 1 ∧
      (a.upperAt i).vec64 0 = (b.upperAt i).vec64 0 ∧
      (a.upperAt i).vec64 1 = (b.upperAt i).vec64 1) :
    forLoopE (fun i j =>
      if (a.xmms i).vec64 0 ≠ (b.xmms i).vec64 0 ∨
         (a.xmms i).vec64 1 ≠ (b.xmms i).vec64 1 ∨
         (a.upperAt i).vec64 0 ≠ (b.upperAt i).vec64 0 ∨
         (a.upperAt i).vec64 1 ≠ (b.upperAt i).vec64 1 then
        (Except.error (-1) : Except Int Nat)
      else
        .ok (j + 16)) count start j = .ok (j + 16 * count) := by
  induction count generalizing start j with
  | zero => simp [forLoopE]
  | succ n ih =>
    obtain ⟨h1, h2, h3, h4⟩ := h start (le_refl _) (by omega)
    rw [forLoopE]
    simp only [h1, h2, h3, h4, ne_eq, not_true_eq_false, or_self, if_false]
    rw [ih (start + 1) (j + 16) (fun i hi1 hi2 => h i (by omega) (by omega))]
    have e : j + 16 + 16 * n = j + 16 * (n + 1) := by omega
    rw [e]

/-- The read-back comparison returns when all compared lanes agree. -/
theorem verifyReadBack_ok (N : Nat) (a b : FPSTATE)
    (h : ∀ i, i < N →
      (a.xmms i).vec64 0 = (b.xmms i).vec64 0 ∧ (a.xmms i).vec64 1 = (b.xmms i).vec64 1 ∧
      (a.upperAt i).vec64 0 = (b.upperAt i).vec64 0 ∧
      (a.upperAt i).vec64 1 = (b.upperAt i).vec64 1) :
    verifyReadBack N a b = .ok (16 * N) := by
  unfold verifyReadBack
  rw [forLoopE_verify_ok a b N 0 0 (fun i _ hi => h i (by omega))]
  simp

/-- C15: for every captured FP state (with faithful capture and commit) the
call passes its read-back check and returns. The context the original
function is called with has every 32-bit lane of every register `i < N`,
legacy and upper half, equal to 0xacdcacdc, and is unchanged outside the
legacy registers below `N` and the bytes below `16 * N` of `_ymmUpper`; one
mutation writes the bytes 0 .. 16 * N - 1 of `_ymmUpper`, each once, in
order. When `executeAtAddr` is not 0 the second mutation writes that range once
more and the context `PIN_ExecuteAt` gets has every such lane equal to
0xdeadbeef; when `executeAtAddr` is 0 nothing is written after the first
mutation and the context stays as it was for the call. -/
theorem REPLACE_ReplacedYmmRegs_pattern_fill (N : Nat) (knob : Bool) (executeAtAddr : Nat)
    (context : CONTEXT) :
    ∃ res, REPLACE_ReplacedYmmRegs N knob executeAtAddr context = .ok res ∧
      (∀ i, i < N → ∀ k, k < 4 →
        (res.calledWith.fpstate.xmms i).vec32 k = 0xacdcacdc ∧
        (res.calledWith.fpstate.upperAt (16 * i)).vec32 k = 0xacdcacdc) ∧
      (∀ i, N ≤ i → res.calledWith.fpstate.xmms i = context.fpstate.xmms i) ∧
      (∀ b, 16 * N ≤ b → res.calledWith.fpstate.ymmUpper b = context.fpstate.ymmUpper b) ∧
      (executeAtAddr ≠ 0 →
        res.upperWrites = List.range (16 * N) ++ List.range (16 * N) ∧
        res.executedAt = some res.ctxt ∧
        ∀ i, i < N → ∀ k, k < 4 →
          (res.ctxt.fpstate.xmms i).vec32 k = 0xdeadbeef ∧
          (res.ctxt.fpstate.upperAt (16 * i)).vec32 k = 0xdeadbeef) ∧
      (executeAtAddr = 0 →
        res.upperWrites = List.range (16 * N) ∧
        res.executedAt = none ∧ res.ctxt = res.calledWith ∧
        res.fpContextFromPin = res.calledWith.fpstate) := by
  have hctx : (if knob = true then PIN_SaveContext context else context) = context := by
    cases knob <;> rfl
  unfold REPLACE_ReplacedYmmRegs
  simp only [hctx, PIN_GetContextFPState, PIN_SetContextFPState, setYmmPattern_eq]
  rw [verifyReadBack_ok N _ _ (fun i _ => ⟨rfl, rfl, rfl, rfl⟩)]
  by_cases hx : executeAtAddr = 0
  · simp only [hx, ne_eq, not_true_eq_false, if_false]
    refine ⟨_, rfl, ?_, ?_, ?_, ?_, ?_⟩
    · intro i hi k hk
      exact pattern_lanes N 0xacdcacdc (by decide) _ _ i k hi hk
    · intro i hi
      funext b
      have h : ¬ (i < N ∧ b < 16) := by omega
      simp only [if_neg h]
    · intro b hb
      have h : ¬ (b < 16 * N) := by omega
      simp only [if_neg h]
    · intro h
      exact h.elim
    · intro _
      exact ⟨rfl, rfl, rfl, rfl⟩
  · simp only [ne_eq, hx, not_false_eq_true, if_true]
    refine ⟨_, rfl, ?_, ?_, ?_, ?_, ?_⟩
    · intro i hi k hk
      exact pattern_lanes N 0xacdcacdc (by decide) _ _ i k hi hk
    · intro i hi
      funext b
      have h : ¬ (i < N ∧ b < 16) := by omega
      simp only [if_neg h]
    · intro b hb
      have h : ¬ (b < 16 * N) := by omega
      simp only [if_neg h]
    · intro _
      refine ⟨rfl, rfl, ?_⟩
      intro i hi k hk
      exact pattern_lanes N 0xdeadbeef (by decide) _ _ i k hi hk
    · intro h
      exact h.elim

/-- Witness of C15: 16 registers, `executeAtAddr = 0`, an all-zero FP state. -/
theorem REPLACE_ReplacedYmmRegs_pattern_fill_witness :
    ∃ res, REPLACE_ReplacedYmmRegs 16 false 0 (filledContext 0) = .ok res ∧
      res.upperWrites = List.range (16 * 16) ∧ res.executedAt = none :=
  match REPLACE_ReplacedYmmRegs_pattern_fill 16 false 0 (filledContext 0) with
  | ⟨res, h, _, _, _, _, h0⟩ => ⟨res, h, (h0 rfl).1, (h0 rfl).2.1⟩

/-- C16 (the code falls short of the claim): with `NUM_YMM_REGS = 16`, a written
state that is 0xa5 in every byte and a state read back that differs from it in
byte 100 of `_ymmUpper` (the upper half of register 6), the comparison loop
reports nothing: it runs to its end. -/
theorem verifyReadBack_misses_upper_half :
    (filledContext 0xa5).fpstate.ymmUpper 100 ≠ upperByte100Cleared.ymmUpper 100 ∧
    verifyReadBack 16 (filledContext 0xa5).fpstate upperByte100Cleared = .ok 256 := by
  refine ⟨by decide, ?_⟩
  apply verifyReadBack_ok 16
  intro i hi
  refine ⟨rfl, rfl, ?_, ?_⟩ <;> interval_cases i <;> rfl

/-- The stack pointer `OnException` writes with `TARGET_IA32E`: the current one
rounded down to a multiple of 16. -/
theorem OnException_newSp (curSp : Nat) :
    ((((curSp : Int) - GetStackAdjustment 8 (wrapINT32 ((curSp % 16 : Nat) : Int)) 8) %
      18446744073709551616).toNat) = (curSp - curSp % 16) % 18446744073709551616 := by
  have hw : wrapINT32 ((curSp % 16 : Nat) : Int) = ((curSp % 16 : Nat) : Int) :=
    wrapINT32_of_range _ (by omega) (by omega)
  rw [hw]
  by_cases hc : curSp % 16 = 0
  · have hz : (((curSp % 16 : Nat)) : Int) = 0 := by simp [hc]
    have hadj : GetStackAdjustment 8 0 8 = 0 := by simp [GetStackAdjustment]
    rw [hz, hadj]
    omega
  · have hnz : (((curSp % 16 : Nat)) : Int) ≠ 0 := by omega
    rw [GetStackAdjustment_eq_emod 8 _ 8 (by decide) hnz]
    omega

/-- C18: in the 64-bit configuration, for a reason `OnException` handles, a
`ctxtFrom` that passes the check and every 64-bit stack pointer `curSp` of
`ctxtTo`, `OnException` returns a context whose RIP is
`dumpYmmRegsAtExceptionAddr` and whose RSP is
`curSp - GetStackAdjustment(curSp mod 16, 8)` modulo 2^64, which is `curSp`
rounded down to a multiple of 16: a multiple of 16, not above `curSp` and at
most 15 bytes below it. -/
theorem OnException_rsp_aligned (dump : Nat) (reason : CONTEXT_CHANGE_REASON)
    (ctxtFrom ctxtTo : CONTEXT)
    (hreason : ¬ (reason = .CONTEXT_CHANGE_REASON_SIGRETURN ∨
      reason = .CONTEXT_CHANGE_REASON_APC ∨ reason = .CONTEXT_CHANGE_REASON_CALLBACK ∨
      reason = .CONTEXT_CHANGE_REASON_FATALSIGNAL))
    (hfrom : ∀ i, i < 16 → ∀ j, j < 16 → ctxtFrom.fpstate.xmms i j = 0xa5)
    (hsp : ctxtTo.REG_STACK_PTR < 18446744073709551616) :
    ∃ c, OnException true dump reason ctxtFrom (some ctxtTo) = .ok (some c) ∧
      c.REG_INST_PTR = dump ∧
      (c.REG_STACK_PTR : Int) =
        ((ctxtTo.REG_STACK_PTR : Int) -
          GetStackAdjustment 8 ((ctxtTo.REG_STACK_PTR % 16 : Nat) : Int) 8) %
            18446744073709551616 ∧
      c.REG_STACK_PTR % 16 = 0 ∧
      c.REG_STACK_PTR ≤ ctxtTo.REG_STACK_PTR ∧
      ctxtTo.REG_STACK_PTR - c.REG_STACK_PTR ≤ 15 := by
  have hw : wrapINT32 ((ctxtTo.REG_STACK_PTR % 16 : Nat) : Int) =
      ((ctxtTo.REG_STACK_PTR % 16 : Nat) : Int) :=
    wrapINT32_of_range _ (by omega) (by omega)
  have hnew := OnException_newSp ctxtTo.REG_STACK_PTR
  unfold OnException
  simp only [hreason, if_false, if_true]
  rw [CheckAndSetFpContextYmmRegs_ok 16 ⟨ctxtFrom, ctxtTo⟩ hfrom]
  refine ⟨_, rfl, rfl, ?_, ?_, ?_, ?_⟩
  · simp only []
    rw [hw] at hnew ⊢
    omega
  · simp only [hnew]
    omega
  · simp only [hnew]
    omega
  · simp only [hnew]
    omega

/-- Witness of C18: an exception with the stack pointer 0x7ffc8. -/
theorem OnException_rsp_aligned_witness :
    ∃ c, OnException true 0x401000 .CONTEXT_CHANGE_REASON_EXCEPTION (filledContext 0xa5)
        (some ⟨(filledContext 0xa5).fpstate, 0, 0x7ffc8⟩) = .ok (some c) ∧
      c.REG_STACK_PTR % 16 = 0 :=
  match OnException_rsp_aligned 0x401000 .CONTEXT_CHANGE_REASON_EXCEPTION (filledContext 0xa5)
      ⟨(filledContext 0xa5).fpstate, 0, 0x7ffc8⟩ (by decide) (fun _ _ _ _ => rfl) (by decide) with
  | ⟨c, h, _, _, h16, _, _⟩ => ⟨c, h, h16⟩

end SetFpContextYmm
